import Mathlib

/-!
# RTP connection engine (`src/rtp.c`): embedding and verified properties

The C source is embedded shallowly.

* `char` buffers are lists of `Int`; an element is the value `(int)buffer[i]`.
* `int` arithmetic that can leave the 32-bit range (the checksum accumulator) is wrapped
  explicitly with `wrap32`.  Lengths, counts and indices are natural numbers: for an
  `int` length `0 ≤ length ≤ INT_MAX` every intermediate value of `packetize` is at most
  `length`, so no wrapping occurs there; in the receive worker the sums `index +
  payload_length` and `buffer_length * 2` are exact as long as fewer than `2^30` bytes have
  been accumulated.
* Memory returned by `malloc` holds indeterminate bytes; they are supplied by a function
  `junk : Nat → Int`, over which every theorem is universally quantified.
* `malloc` is taken to succeed (the `exit(EXIT_FAILURE)` branches are not modelled).
* The headers `network.h`, `rtp.h` and `queue.h` are absent from the sources.
  The constants they define are the fields of `Consts`; the queue is a list.
-/

namespace Rtp

/-! ## Constants of the absent headers -/

/-- The constants of `network.h` used by `rtp.c`: the payload capacity of a packet and
the five packet-type codes.  They are parameters of the development. -/
structure Consts where
  MAX_PAYLOAD_LENGTH : Nat
  DATA : Int
  LAST_DATA : Int
  ACK : Int
  NACK : Int
  TERM : Int
deriving DecidableEq, Repr

/-- The assumptions on the constants: the capacity is positive and the five type codes
are pairwise distinct. -/
def Consts.WellFormed (k : Consts) : Prop :=
  0 < k.MAX_PAYLOAD_LENGTH ∧ [k.DATA, k.LAST_DATA, k.ACK, k.NACK, k.TERM].Nodup

instance (k : Consts) : Decidable k.WellFormed := by
  unfold Consts.WellFormed
  infer_instance

/-- A sample instance of the constants, with capacity 5 as in the end-to-end scenario of
the specification; used for concrete evaluations. -/
def sampleConsts : Consts :=
  { MAX_PAYLOAD_LENGTH := 5, DATA := 0, LAST_DATA := 1, ACK := 2, NACK := 3, TERM := 4 }

/-! ## Machine integers and raw memory -/

/-- Reduction of an integer to the range of a 32-bit two's complement `int`. -/
def wrap32 (x : Int) : Int := (x + 2147483648) % 4294967296 - 2147483648

/-- The contents of a fresh `malloc(n)` block: `n` indeterminate bytes, read off `junk`
starting at offset `base`. -/
def malloc (junk : Nat → Int) (base n : Nat) : List Int :=
  (List.range n).map (fun j => junk (base + j))

/-- The effect of `memcpy(dst + off, src, n)` on the block `dst`. -/
def memcpy (dst : List Int) (off : Nat) (src : List Int) (n : Nat) : List Int :=
  dst.take off ++ src.take n ++ dst.drop (off + n)

/-- Modelled from the spec: the macro `MAX` (its header is absent), the larger of two
values, as in "doubling capacity as needed, exact-fit on first allocation". -/
def MAX (a b : Nat) : Nat := if a > b then a else b

/-! ## Data model -/

/-- The struct `packet_t` of `network.h`, with the four fields `rtp.c` accesses.
`payload` is the `char[MAX_PAYLOAD_LENGTH]` array. -/
structure packet_t where
  type : Int
  payload_length : Nat
  checksum : Int
  payload : List Int
deriving DecidableEq, Repr

/-- The struct `message_t` of `rtp.c`. -/
structure message_t where
  buffer : List Int
  length : Nat
deriving DecidableEq, Repr

/-! ## PROBLEM 2: `checksum` -/

/-- The `for` loop of `checksum`, started at index `i` with accumulator `acc`, for the
given number of remaining iterations (`length - i`). -/
def checksumLoop (buffer : List Int) : Nat → Int → Nat → Int
  | _, acc, 0 => acc
  | i, acc, n + 1 =>
    if i % 2 = 0 then
      checksumLoop buffer (i + 1) (wrap32 (acc + wrap32 ((i : Int) * buffer.getD i 0))) n
    else
      checksumLoop buffer (i + 1) (wrap32 (acc + buffer.getD i 0)) n

/-- The function `checksum(buffer, length)`. -/
def checksum (buffer : List Int) (length : Nat) : Int :=
  checksumLoop buffer 0 0 length

/-- The summand of index `i` in the reference definition of the checksum: `i * B[i]` when
`i` is even, `B[i]` when `i` is odd. -/
def checksumTerm (B : List Int) (i : Nat) : Int :=
  if i % 2 = 0 then (i : Int) * B.getD i 0 else B.getD i 0

/-- The exact (unbounded) sum of the reference definition over the indices `[0, n)`. -/
def checksumSum (B : List Int) (n : Nat) : Int :=
  ∑ i in Finset.range n, checksumTerm B i

/-- The reference definition of the checksum, following the specification's words: the
sum over `i` in `[0, n)` of `i * B[i]` for even `i` and of `B[i]` for odd `i`, as a value of
the C type `int`. -/
def checksum_spec (B : List Int) (n : Nat) : Int :=
  wrap32 (checksumSum B n)

/-! ## PROBLEM 1: `packetize` -/

/-- The value `numPackets` computed at the head of `packetize`. -/
def numPackets (k : Consts) (length : Nat) : Nat :=
  if length % k.MAX_PAYLOAD_LENGTH ≠ 0 then
    length / k.MAX_PAYLOAD_LENGTH + 1
  else
    length / k.MAX_PAYLOAD_LENGTH

/-- The body of the `for` loop of `packetize` for index `i`: the packet stored in
`packets[i]`.  The payload array starts out as indeterminate bytes of the `malloc`ed
packet array and receives `payload_length` bytes of the buffer from offset
`i * MAX_PAYLOAD_LENGTH`. -/
def packetizeAt (k : Consts) (junk : Nat → Int) (buffer : List Int) (length : Nat)
    (i : Nat) : packet_t :=
  let type := if i + 1 = numPackets k length then k.LAST_DATA else k.DATA
  let payload_length :=
    if i + 1 = numPackets k length then length % k.MAX_PAYLOAD_LENGTH
    else k.MAX_PAYLOAD_LENGTH
  { type := type
    payload_length := payload_length
    payload := memcpy (malloc junk (i * k.MAX_PAYLOAD_LENGTH) k.MAX_PAYLOAD_LENGTH) 0
      (buffer.drop (i * k.MAX_PAYLOAD_LENGTH)) payload_length
    checksum := checksum (buffer.drop (i * k.MAX_PAYLOAD_LENGTH)) payload_length }

/-- The function `packetize(buffer, length, &count)`: the returned array and the value
written to `*count`. -/
def packetize (k : Consts) (junk : Nat → Int) (buffer : List Int) (length : Nat) :
    List packet_t × Nat :=
  ((List.range (numPackets k length)).map (packetizeAt k junk buffer length),
    numPackets k length)

/-- Reassembly of a packet array: the first `payload_length` bytes of each payload, in
array order. -/
def reassemble (packets : List packet_t) : List Int :=
  (packets.map (fun p => p.payload.take p.payload_length)).flatten

/-! ## Connection state and the queue -/

/-- The fields of `rtp_connection_t` that `rtp.c` reads and writes, apart from the network
handle, the mutexes, the condition variables and the thread handles. -/
structure rtp_connection_t where
  alive : Int
  ack_signal : Int
  send_queue : List message_t
  recv_queue : List message_t
deriving DecidableEq, Repr

/-- Modelled from the spec: `queue_add` of the absent `queue.h`, "`add(item)` (append)". -/
def queue_add (q : List message_t) (m : message_t) : List message_t := q ++ [m]

/-- Modelled from the spec: `queue_extract` of the absent `queue.h`,
"`extract() -> item | empty-sentinel` (FIFO pop)". -/
def queue_extract (q : List message_t) : Option message_t × List message_t :=
  match q with
  | [] => (none, [])
  | m :: rest => (some m, rest)

/-- Modelled from the spec: `queue_size` of the absent `queue.h`, "`size() -> count`". -/
def queue_size (q : List message_t) : Nat := q.length

/-! ## The receive worker `rtp_recv_thread` -/

/-- The local variables of one pass of the outer loop of `rtp_recv_thread`: the
accumulation buffer, its capacity `buffer_length`, the write position `index`, and the
packet `*ack_or_nack` used for replies. -/
structure RecvLocals where
  buffer : List Int
  buffer_length : Nat
  index : Nat
  ack_or_nack : packet_t
deriving DecidableEq, Repr

/-- How one pass of the body of the inner `do ... while` loop ends: `again` when the loop
condition `packet.type != LAST_DATA` holds, `finished` when it fails, `broke` on the
`break` of the disconnect branch. -/
inductive LoopExit where
  | again
  | finished
  | broke
deriving DecidableEq, Repr

/-- The state threaded through the inner loop: the connection, the locals, and the packets
handed to `net_send_packet` so far (oldest first). -/
structure RecvState where
  conn : rtp_connection_t
  loc : RecvLocals
  sent : List packet_t
deriving DecidableEq, Repr

/-- The branch of the inner loop taken for a packet of type DATA or LAST_DATA:
validation, the reply, and accumulation.  Returns the new state and the possibly
rewritten `packet.type`. -/
def recvData (k : Consts) (junk : Nat → Int) (s : RecvState) (packet : packet_t) :
    RecvState × Int :=
  if packet.checksum = checksum packet.payload packet.payload_length then
    let reply := { s.loc.ack_or_nack with type := k.ACK }
    let grown : List Int × Nat :=
      if s.loc.index + packet.payload_length ≥ s.loc.buffer_length then
        let length := MAX (s.loc.index + packet.payload_length) (s.loc.buffer_length * 2)
        (memcpy (malloc junk 0 length) 0 s.loc.buffer s.loc.buffer_length, length)
      else
        (s.loc.buffer, s.loc.buffer_length)
    ({ s with
        loc :=
          { buffer := memcpy grown.1 s.loc.index packet.payload packet.payload_length
            buffer_length := grown.2
            index := s.loc.index + packet.payload_length
            ack_or_nack := reply }
        sent := s.sent ++ [reply] },
      packet.type)
  else
    let reply := { s.loc.ack_or_nack with type := k.NACK }
    ({ s with
        loc := { s.loc with ack_or_nack := reply }
        sent := s.sent ++ [reply] },
      if packet.type = k.LAST_DATA then k.DATA else packet.type)

/-- One pass of the body of the inner loop of `rtp_recv_thread`.  `ret` is the value
returned by `net_recv_packet` and `packet` the packet it stored. -/
def recvStep (k : Consts) (junk : Nat → Int) (s : RecvState) (ret : Int)
    (packet : packet_t) : RecvState × LoopExit :=
  if ret ≤ 0 ∨ packet.type = k.TERM then
    ({ s with conn := { s.conn with alive := 0 } }, LoopExit.broke)
  else
    let r : RecvState × Int :=
      if packet.type = k.DATA ∨ packet.type = k.LAST_DATA then recvData k junk s packet
      else (s, packet.type)
    let s2 : RecvState :=
      if r.2 = k.ACK ∨ r.2 = k.NACK then
        { r.1 with conn :=
            { r.1.conn with ack_signal := if r.2 = k.ACK then k.ACK else k.NACK } }
      else r.1
    (s2, if r.2 ≠ k.LAST_DATA then LoopExit.again else LoopExit.finished)

/-- The inner `do ... while` loop over the packets read from the channel, each paired
with the value `net_recv_packet` returned for it.  `none` when the reads run out before
the loop ends (the worker is then blocked in `net_recv_packet`). -/
def recvLoop (k : Consts) (junk : Nat → Int) :
    RecvState → List (Int × packet_t) → Option (RecvState × List (Int × packet_t))
  | _, [] => none
  | s, (ret, packet) :: rest =>
    match recvStep k junk s ret packet with
    | (s1, LoopExit.again) => recvLoop k junk s1 rest
    | (s1, _) => some (s1, rest)

/-- The locals at the start of a pass of the outer loop: `buffer_length = 0`,
`index = 0`, a buffer of `sizeof(MAX_PAYLOAD_LENGTH)` (four) indeterminate bytes and the
indeterminate reply packet `uninit`. -/
def recvInit (junk : Nat → Int) (uninit : packet_t) : RecvLocals :=
  { buffer := malloc junk 0 4, buffer_length := 0, index := 0, ack_or_nack := uninit }

/-- One pass of the outer loop of `rtp_recv_thread`: reassembly of one message and, when
the connection is still alive, its delivery to `recv_queue`.  Returns the connection, the
packets sent in reply and the unread rest of the input. -/
def recvMessage (k : Consts) (junk : Nat → Int) (uninit : packet_t)
    (conn : rtp_connection_t) (input : List (Int × packet_t)) :
    Option (rtp_connection_t × List packet_t × List (Int × packet_t)) :=
  match recvLoop k junk { conn := conn, loc := recvInit junk uninit, sent := [] } input with
  | none => none
  | some (s, rest) =>
    if s.conn.alive = 1 then
      let message : message_t := { buffer := s.loc.buffer, length := s.loc.buffer_length }
      some ({ s.conn with recv_queue := queue_add s.conn.recv_queue message }, s.sent, rest)
    else
      some (s.conn, s.sent, rest)

/-! ## The send worker `rtp_send_thread` -/

/-- What the send worker meets in one pass of its `for` loop: the value returned by
`net_send_packet`, and the values the receive worker stores into `ack_signal`, in order,
while the send worker waits on `ack_cond`. -/
structure SendEvent where
  net_ret : Int
  stores : List Int
deriving DecidableEq, Repr

/-- The wait loop `while (ack_signal != NACK && ack_signal != ACK) pthread_cond_wait(...)`:
starting from the current `ack_signal`, each wake-up observes the next stored value.
`none` when the stores run out with the condition still true (the worker stays blocked). -/
def ackWait (k : Consts) : Int → List Int → Option Int
  | sig, [] => if sig ≠ k.NACK ∧ sig ≠ k.ACK then none else some sig
  | sig, v :: rest => if sig ≠ k.NACK ∧ sig ≠ k.ACK then ackWait k v rest else some sig

/-- How the `for` loop of the send worker stands: `running` between passes, `done` when
the condition `i < array_length` failed, `broke` after the `break` on a failed send,
`blocked` while waiting on `ack_cond`, `starved` when the recorded events ran out before
the loop ended. -/
inductive SendStatus where
  | running
  | done
  | broke
  | blocked
  | starved
deriving DecidableEq, Repr

/-- The state of the `for` loop of `rtp_send_thread`: the loop variable `i`, the fields
`ack_signal` and `alive` of the connection, and the packets handed to `net_send_packet`
so far (oldest first). -/
structure SendState where
  i : Int
  ack_signal : Int
  alive : Int
  sent : List packet_t
  status : SendStatus
deriving DecidableEq, Repr

/-- One pass of the `for` loop of `rtp_send_thread`, the increment `i++` included. -/
def sendStep (k : Consts) (packet_array : List packet_t) (s : SendState)
    (ev : SendEvent) : SendState :=
  let sent := s.sent ++ (packet_array.get? s.i.toNat).toList
  if ev.net_ret ≤ 0 then
    { s with alive := 0, sent := sent, status := SendStatus.broke }
  else
    match ackWait k s.ack_signal ev.stores with
    | none => { s with sent := sent, status := SendStatus.blocked }
    | some sig =>
      let i1 := if sig = k.NACK then s.i - 1 else s.i
      { s with i := i1 + 1, ack_signal := 0, sent := sent, status := SendStatus.running }

/-- The `for (i = 0; i < array_length; i++)` loop of `rtp_send_thread`, from a state
`s`, over the recorded events. -/
def sendLoop (k : Consts) (packet_array : List packet_t) :
    SendState → List SendEvent → SendState
  | s, [] =>
    if s.i < (packet_array.length : Int) then { s with status := SendStatus.starved }
    else { s with status := SendStatus.done }
  | s, ev :: rest =>
    if s.i < (packet_array.length : Int) then
      let s1 := sendStep k packet_array s ev
      if s1.status = SendStatus.running then sendLoop k packet_array s1 rest else s1
    else { s with status := SendStatus.done }

/-- The state at the head of the `for` loop: `i = 0`. -/
def sendInit (conn : rtp_connection_t) : SendState :=
  { i := 0, ack_signal := conn.ack_signal, alive := conn.alive, sent := [],
    status := SendStatus.running }

/-! ## The API: `rtp_send_message`, `rtp_recv_message` -/

/-- The function `rtp_send_message(connection, buffer, length)`: the returned value and the
connection afterwards. -/
def rtp_send_message (junk : Nat → Int) (connection : rtp_connection_t)
    (buffer : List Int) (length : Nat) : Int × rtp_connection_t :=
  if connection.alive = 0 then (-1, connection)
  else
    let message : message_t :=
      { buffer := memcpy (malloc junk 0 length) 0 buffer length, length := length }
    (1, { connection with send_queue := queue_add connection.send_queue message })

/-- The outcome of a call of `rtp_recv_message`: it returns, or it blocks in
`pthread_cond_wait`, or it dereferences the null pointer of an empty queue. -/
inductive RecvOutcome where
  | returned (ret : Int) (connection : rtp_connection_t) (buffer : List Int) (length : Int)
  | blocked
  | fault
deriving DecidableEq, Repr

/-- The function `rtp_recv_message(connection, &buffer, &length)`.  `buffer0` and `length0`
are the values of `*buffer` and `*length` before the call; the outcome carries them after
the call. -/
def rtp_recv_message (connection : rtp_connection_t) (buffer0 : List Int) (length0 : Int) :
    RecvOutcome :=
  if connection.alive = 0 then RecvOutcome.returned (-1) connection buffer0 length0
  else if queue_size connection.recv_queue = 0 ∧ connection.alive = 1 then RecvOutcome.blocked
  else if connection.alive = 0 then RecvOutcome.returned (-1) connection buffer0 length0
  else
    match queue_extract connection.recv_queue with
    | (none, _) => RecvOutcome.fault
    | (some message, rest) =>
      RecvOutcome.returned message.length { connection with recv_queue := rest }
        message.buffer message.length

/-- An event of the send loop in which the send succeeds and the wait, entered with
`ack_signal` reset, ends on NACK. -/
def SendEvent.isNack (k : Consts) (ev : SendEvent) : Prop :=
  0 < ev.net_ret ∧ ackWait k 0 ev.stores = some k.NACK

/-- An event of the send loop in which the send succeeds and the wait, entered with
`ack_signal` reset, ends on ACK. -/
def SendEvent.isAck (k : Consts) (ev : SendEvent) : Prop :=
  0 < ev.net_ret ∧ ackWait k 0 ev.stores = some k.ACK

/-- The events met while one packet is transmitted under stop-and-wait: the passes
answered by NACK, then the pass answered by ACK. -/
def blockEvents (b : List SendEvent × SendEvent) : List SendEvent := b.1 ++ [b.2]

/-- The transmissions expected for packets paired with their event blocks: each packet
once per NACK and once more for its ACK, in array order. -/
def expectedSends : List packet_t → List (List SendEvent × SendEvent) → List packet_t
  | p :: ps, b :: bs => List.replicate (b.1.length + 1) p ++ expectedSends ps bs
  | _, _ => []

instance (k : Consts) (ev : SendEvent) : Decidable (SendEvent.isNack k ev) := by
  unfold SendEvent.isNack
  infer_instance

instance (k : Consts) (ev : SendEvent) : Decidable (SendEvent.isAck k ev) := by
  unfold SendEvent.isAck
  infer_instance

/-! ## Lemmas on `wrap32` and `checksum` -/

theorem wrap32_add_left (a b : Int) : wrap32 (wrap32 a + b) = wrap32 (a + b) := by
  unfold wrap32; omega

theorem wrap32_add_right (a b : Int) : wrap32 (a + wrap32 b) = wrap32 (a + b) := by
  unfold wrap32; omega

theorem wrap32_of_range (x : Int) (h1 : -2147483648 ≤ x) (h2 : x < 2147483648) :
    wrap32 x = x := by
  unfold wrap32; omega

theorem wrap32_zero : wrap32 0 = 0 := by decide

theorem wrap32_eq_dvd (a b : Int) (h : wrap32 a = wrap32 b) : (4294967296 : Int) ∣ (a - b) := by
  unfold wrap32 at h; omega

theorem checksumLoop_eq (B : List Int) (n : Nat) : ∀ (i : Nat) (a : Int),
    checksumLoop B i (wrap32 a) n
      = wrap32 (a + ∑ j in Finset.range n, checksumTerm B (i + j)) := by
  induction n with
  | zero => intro i a; simp [checksumLoop]
  | succ n ih =>
    intro i a
    have hsum : ∑ j in Finset.range (n + 1), checksumTerm B (i + j)
        = checksumTerm B i + ∑ j in Finset.range n, checksumTerm B (i + 1 + j) := by
      rw [Finset.sum_range_succ', add_comm]
      congr 1
      apply Finset.sum_congr rfl
      intro j _
      congr 1
      omega
    rw [hsum, ← add_assoc, ← ih (i + 1) (a + checksumTerm B i)]
    simp only [checksumLoop, checksumTerm]
    split
    · rw [wrap32_add_right, wrap32_add_left]
    · rw [wrap32_add_left]

theorem checksum_eq_spec (B : List Int) (n : Nat) : checksum B n = checksum_spec B n := by
  have h := checksumLoop_eq B n 0 0
  rw [wrap32_zero] at h
  simpa [checksum, checksum_spec, checksumSum] using h

theorem getD_eq_of_take_eq {B B' : List Int} {n : Nat} (h : B'.take n = B.take n)
    {i : Nat} (hi : i < n) : B'.getD i 0 = B.getD i 0 := by
  have h1 : (B'.take n).getD i 0 = (B.take n).getD i 0 := by rw [h]
  simpa [List.getD, List.getElem?_take, hi] using h1

theorem checksumSum_congr {B B' : List Int} {n : Nat} (h : B'.take n = B.take n) :
    checksumSum B' n = checksumSum B n := by
  unfold checksumSum
  apply Finset.sum_congr rfl
  intro i hi
  unfold checksumTerm
  rw [getD_eq_of_take_eq h (Finset.mem_range.mp hi)]

theorem checksum_congr {B B' : List Int} {n : Nat} (h : B'.take n = B.take n) :
    checksum B' n = checksum B n := by
  rw [checksum_eq_spec, checksum_eq_spec, checksum_spec, checksum_spec, checksumSum_congr h]

theorem getD_range_of_take (B : List Int) (n : Nat)
    (hB : ∀ b ∈ B.take n, -128 ≤ b ∧ b ≤ 255) (i : Nat) (hi : i < n) :
    -128 ≤ B.getD i 0 ∧ B.getD i 0 ≤ 255 := by
  by_cases hl : i < B.length
  · have hmem : B[i] ∈ B.take n := by
      rw [List.mem_take_iff_getElem]
      exact ⟨i, by omega, rfl⟩
    have := hB _ hmem
    simpa [List.getD, List.getElem?_eq_getElem hl] using this
  · have : B.getD i 0 = 0 := by
      simp [List.getD, List.getElem?_eq_none (by omega : B.length ≤ i)]
    rw [this]; omega

theorem checksumSum_bound (B : List Int) (n : Nat)
    (hB : ∀ b ∈ B.take n, -128 ≤ b ∧ b ≤ 255) (hn : n ≤ 2048) :
    |checksumSum B n| ≤ 1069547520 := by
  unfold checksumSum
  have hterm : ∀ i ∈ Finset.range n, |checksumTerm B i| ≤ 522240 := by
    intro i hi
    have hi' := Finset.mem_range.mp hi
    obtain ⟨h1, h2⟩ := getD_range_of_take B n hB i hi'
    unfold checksumTerm
    have hi2 : (i : Int) < 2048 := by omega
    have hi0 : (0 : Int) ≤ i := by omega
    split
    · rw [abs_le]; constructor <;> nlinarith
    · rw [abs_le]; constructor <;> omega
  calc |∑ i in Finset.range n, checksumTerm B i|
      ≤ ∑ i in Finset.range n, |checksumTerm B i| := Finset.abs_sum_le_sum_abs _ _
    _ ≤ ∑ _i in Finset.range n, (522240 : Int) := Finset.sum_le_sum hterm
    _ = n * 522240 := by simp
    _ ≤ 1069547520 := by omega

/-- C2: `checksum` equals its reference definition. For every buffer `B` and length `n`,
`checksum(B, n)` is the `int` value of the sum over `i` in `[0, n)` of `i * B[i]` for even `i`
and `B[i]` for odd `i`; it is that sum exactly whenever the bytes are `char` values and
`n ≤ 2048` (no 32-bit wrap-around can occur); it is `0` for the empty range; it depends
only on `B[0..n)`; and `checksum("abcd") = 0*'a' + 'b' + 2*'c' + 'd'`. -/
theorem checksum_matches_reference (B : List Int) (n : Nat) :
    checksum B n = checksum_spec B n ∧
    ((∀ b ∈ B.take n, -128 ≤ b ∧ b ≤ 255) → n ≤ 2048 →
      checksum B n = ∑ i in Finset.range n,
        (if i % 2 = 0 then (i : Int) * B.getD i 0 else B.getD i 0)) ∧
    checksum B 0 = 0 ∧
    (∀ B' : List Int, B'.take n = B.take n → checksum B' n = checksum B n) ∧
    checksum [97, 98, 99, 100] 4 = 0 * 97 + 98 + 2 * 99 + 100 := by
  refine ⟨checksum_eq_spec B n, ?_, rfl, fun B' h => checksum_congr h, by decide⟩
  intro hB hn
  have hb := checksumSum_bound B n hB hn
  rw [abs_le] at hb
  rw [checksum_eq_spec, checksum_spec, wrap32_of_range _ (by omega) (by omega)]
  rfl

/-- Witness for C2: the buffer "abcd" with its four `char` values. -/
theorem checksum_matches_reference_witness :
    checksum [97, 98, 99, 100] 4 = checksum_spec [97, 98, 99, 100] 4 ∧
    checksum [97, 98, 99, 100] 4 = ∑ i in Finset.range 4,
        (if i % 2 = 0 then (i : Int) * [97, 98, 99, 100].getD i 0
          else [97, 98, 99, 100].getD i 0) :=
  ⟨(checksum_matches_reference [97, 98, 99, 100] 4).1,
    (checksum_matches_reference [97, 98, 99, 100] 4).2.1 (by decide) (by decide)⟩

/-! ## Lemmas on `packetize` -/

theorem numPackets_mul_bounds (k : Consts) (hk : 0 < k.MAX_PAYLOAD_LENGTH) (L : Nat) :
    L ≤ numPackets k L * k.MAX_PAYLOAD_LENGTH ∧
    (0 < numPackets k L → (numPackets k L - 1) * k.MAX_PAYLOAD_LENGTH < L) ∧
    (L % k.MAX_PAYLOAD_LENGTH ≠ 0 →
      (numPackets k L - 1) * k.MAX_PAYLOAD_LENGTH + L % k.MAX_PAYLOAD_LENGTH = L) := by
  have hdm := Nat.div_add_mod L k.MAX_PAYLOAD_LENGTH
  have hlt := Nat.mod_lt L hk
  have hcomm := Nat.mul_comm k.MAX_PAYLOAD_LENGTH (L / k.MAX_PAYLOAD_LENGTH)
  unfold numPackets
  split
  · refine ⟨?_, fun _ => ?_, fun _ => ?_⟩
    · rw [Nat.add_mul]; omega
    · simp only [Nat.add_sub_cancel]; omega
    · simp only [Nat.add_sub_cancel]; omega
  · rename_i h
    have h0 : L % k.MAX_PAYLOAD_LENGTH = 0 := by simpa using h
    refine ⟨by omega, fun hpos => ?_, fun hne => absurd h0 hne⟩
    have : (L / k.MAX_PAYLOAD_LENGTH - 1) * k.MAX_PAYLOAD_LENGTH + k.MAX_PAYLOAD_LENGTH
        = L / k.MAX_PAYLOAD_LENGTH * k.MAX_PAYLOAD_LENGTH := by
      rw [← Nat.succ_mul]; congr 1; omega
    omega

theorem numPackets_pos (k : Consts) (hk : 0 < k.MAX_PAYLOAD_LENGTH) (L : Nat) (hL : 0 < L) :
    0 < numPackets k L := by
  have h := (numPackets_mul_bounds k hk L).1
  by_contra h0
  have : numPackets k L = 0 := by omega
  rw [this] at h
  omega

theorem packetize_length (k : Consts) (junk : Nat → Int) (M : List Int) (L : Nat) :
    (packetize k junk M L).1.length = numPackets k L := by
  simp [packetize]

theorem packetize_getElem (k : Consts) (junk : Nat → Int) (M : List Int) (L : Nat)
    (i : Nat) (h : i < (packetize k junk M L).1.length) :
    (packetize k junk M L).1[i] = packetizeAt k junk M L i := by
  simp [packetize]

theorem mem_packetize (k : Consts) (junk : Nat → Int) (M : List Int) (L : Nat)
    (p : packet_t) (hp : p ∈ (packetize k junk M L).1) :
    ∃ i, i < numPackets k L ∧ p = packetizeAt k junk M L i := by
  simp only [packetize, List.mem_map, List.mem_range] at hp
  obtain ⟨i, hi, rfl⟩ := hp
  exact ⟨i, hi, rfl⟩

theorem packetizeAt_payload_length_le (k : Consts) (junk : Nat → Int) (M : List Int)
    (L i : Nat) (hk : 0 < k.MAX_PAYLOAD_LENGTH) :
    (packetizeAt k junk M L i).payload_length ≤ k.MAX_PAYLOAD_LENGTH := by
  simp only [packetizeAt]
  split
  · exact (Nat.mod_lt L hk).le
  · exact le_rfl

theorem packetizeAt_source_bound (k : Consts) (junk : Nat → Int) (M : List Int)
    (L i : Nat) (hk : 0 < k.MAX_PAYLOAD_LENGTH) (hi : i < numPackets k L) :
    i * k.MAX_PAYLOAD_LENGTH + (packetizeAt k junk M L i).payload_length ≤ L := by
  obtain ⟨_, h2, h3⟩ := numPackets_mul_bounds k hk L
  simp only [packetizeAt]
  split
  · rename_i hlast
    have hi' : i = numPackets k L - 1 := by omega
    by_cases hr : L % k.MAX_PAYLOAD_LENGTH = 0
    · rw [hr, hi']; have := h2 (by omega); omega
    · rw [hi']; exact (h3 hr).le
  · rename_i hnot
    have h2' := h2 (by omega)
    have : (i + 1) * k.MAX_PAYLOAD_LENGTH ≤ (numPackets k L - 1) * k.MAX_PAYLOAD_LENGTH :=
      Nat.mul_le_mul_right _ (by omega)
    rw [Nat.succ_mul] at this
    omega

theorem take_memcpy_zero (dst src : List Int) (n : Nat) (h : n ≤ src.length) :
    (memcpy dst 0 src n).take n = src.take n := by
  simp only [memcpy, List.take_zero, List.nil_append, Nat.zero_add]
  rw [List.take_append_of_le_length (by simp [h])]
  simp

theorem packetizeAt_payload_take (k : Consts) (junk : Nat → Int) (M : List Int)
    (L i : Nat) (hk : 0 < k.MAX_PAYLOAD_LENGTH) (hi : i < numPackets k L)
    (hM : L ≤ M.length) :
    (packetizeAt k junk M L i).payload.take (packetizeAt k junk M L i).payload_length
      = (M.drop (i * k.MAX_PAYLOAD_LENGTH)).take (packetizeAt k junk M L i).payload_length := by
  have hb := packetizeAt_source_bound k junk M L i hk hi
  have : (packetizeAt k junk M L i).payload
      = memcpy (malloc junk (i * k.MAX_PAYLOAD_LENGTH) k.MAX_PAYLOAD_LENGTH) 0
          (M.drop (i * k.MAX_PAYLOAD_LENGTH)) (packetizeAt k junk M L i).payload_length := rfl
  rw [this]
  apply take_memcpy_zero
  rw [List.length_drop]
  omega

theorem packetizeAt_checksum (k : Consts) (junk : Nat → Int) (M : List Int)
    (L i : Nat) (hk : 0 < k.MAX_PAYLOAD_LENGTH) (hi : i < numPackets k L)
    (hM : L ≤ M.length) :
    (packetizeAt k junk M L i).checksum
      = checksum (packetizeAt k junk M L i).payload (packetizeAt k junk M L i).payload_length := by
  have h := packetizeAt_payload_take k junk M L i hk hi hM
  have hc : (packetizeAt k junk M L i).checksum
      = checksum (M.drop (i * k.MAX_PAYLOAD_LENGTH))
          (packetizeAt k junk M L i).payload_length := rfl
  rw [hc]
  exact (checksum_congr h).symm

/-! ## Lemmas on the receive worker -/

theorem Consts.WellFormed.distinct {k : Consts} (hk : k.WellFormed) :
    k.DATA ≠ k.LAST_DATA ∧ k.DATA ≠ k.ACK ∧ k.DATA ≠ k.NACK ∧ k.DATA ≠ k.TERM ∧
    k.LAST_DATA ≠ k.ACK ∧ k.LAST_DATA ≠ k.NACK ∧ k.LAST_DATA ≠ k.TERM ∧
    k.ACK ≠ k.NACK ∧ k.ACK ≠ k.TERM ∧ k.NACK ≠ k.TERM := by
  have h := hk.2
  simp only [List.nodup_cons, List.mem_cons, List.mem_singleton, not_or, List.not_mem_nil,
    not_false_eq_true, List.nodup_nil, and_true] at h
  tauto

theorem recvStep_intact (k : Consts) (junk : Nat → Int) (s : RecvState) (ret : Int)
    (p : packet_t) (hk : k.WellFormed) (hret : 0 < ret)
    (ht : p.type = k.DATA ∨ p.type = k.LAST_DATA)
    (hc : p.checksum = checksum p.payload p.payload_length) :
    recvStep k junk s ret p = ((recvData k junk s p).1,
      if p.type = k.LAST_DATA then LoopExit.finished else LoopExit.again) ∧
    (recvData k junk s p).1.sent = s.sent ++ [{ s.loc.ack_or_nack with type := k.ACK }] ∧
    (recvData k junk s p).1.conn = s.conn ∧
    (recvData k junk s p).1.loc.index = s.loc.index + p.payload_length := by
  obtain ⟨h1, h2, h3, h4, h5, h6, h7, h8, h9, h10⟩ := hk.distinct
  have hterm : p.type ≠ k.TERM := by rcases ht with h | h <;> rw [h] <;> assumption
  have hack : p.type ≠ k.ACK := by rcases ht with h | h <;> rw [h] <;> assumption
  have hnack : p.type ≠ k.NACK := by rcases ht with h | h <;> rw [h] <;> assumption
  have hd : (recvData k junk s p).2 = p.type := by simp [recvData, hc]
  refine ⟨?_, by simp [recvData, hc], by simp [recvData, hc], by simp [recvData, hc]⟩
  have hnot : ¬ (ret ≤ 0 ∨ p.type = k.TERM) := by
    intro h; rcases h with h | h
    · omega
    · exact hterm h
  simp only [recvStep, hnot, if_false, ht, if_true, hd, hack, hnack, or_self]
  by_cases hl : p.type = k.LAST_DATA <;> simp [hl]

theorem recvStep_corrupt (k : Consts) (junk : Nat → Int) (s : RecvState) (ret : Int)
    (p : packet_t) (hk : k.WellFormed) (hret : 0 < ret)
    (ht : p.type = k.DATA ∨ p.type = k.LAST_DATA)
    (hc : p.checksum ≠ checksum p.payload p.payload_length) :
    recvStep k junk s ret p =
      ({ s with
          loc := { s.loc with ack_or_nack := { s.loc.ack_or_nack with type := k.NACK } }
          sent := s.sent ++ [{ s.loc.ack_or_nack with type := k.NACK }] },
        LoopExit.again) := by
  obtain ⟨h1, h2, h3, h4, h5, h6, h7, h8, h9, h10⟩ := hk.distinct
  have hterm : p.type ≠ k.TERM := by rcases ht with h | h <;> rw [h] <;> assumption
  have hnot : ¬ (ret ≤ 0 ∨ p.type = k.TERM) := by
    intro h; rcases h with h | h
    · omega
    · exact hterm h
  have h2' : (if p.type = k.LAST_DATA then k.DATA else p.type) = k.DATA := by
    rcases ht with h | h
    · simp [h, h1]
    · simp [h]
  simp only [recvStep, hnot, if_false, ht, if_true, recvData, hc, h2', h2, h3, or_self, h1,
    ne_eq, not_false_eq_true]

/-- C4: the count `packetize` writes to `*count`, which is the length of the returned
array, is `ceil(L / MAX_PAYLOAD_LENGTH)` for every message length `L`, and is `0` when
`L = 0`. -/
theorem packetize_count_eq_ceil (k : Consts) (junk : Nat → Int) (M : List Int) (L : Nat)
    (hk : 0 < k.MAX_PAYLOAD_LENGTH) :
    (packetize k junk M L).2 = ⌈(L : ℚ) / (k.MAX_PAYLOAD_LENGTH : ℚ)⌉₊ ∧
    (packetize k junk M L).1.length = (packetize k junk M L).2 ∧
    (packetize k junk M 0).2 = 0 := by
  obtain ⟨hb1, hb2, _⟩ := numPackets_mul_bounds k hk L
  have hm : (0 : ℚ) < (k.MAX_PAYLOAD_LENGTH : ℚ) := by exact_mod_cast hk
  refine ⟨?_, packetize_length k junk M L, ?_⟩
  · show numPackets k L = _
    apply le_antisymm
    · by_cases h0 : numPackets k L = 0
      · omega
      · have hlt : numPackets k L - 1 < ⌈(L : ℚ) / (k.MAX_PAYLOAD_LENGTH : ℚ)⌉₊ := by
          rw [Nat.lt_ceil, lt_div_iff₀ hm]
          exact_mod_cast hb2 (by omega)
        omega
    · rw [Nat.ceil_le, div_le_iff₀ hm]
      exact_mod_cast hb1
  · show numPackets k 0 = 0
    simp [numPackets]

/-- Witness for C4: capacity 5 and the 11-byte message of the end-to-end scenario give
three packets. -/
theorem packetize_count_eq_ceil_witness :
    (packetize sampleConsts (fun _ => 0) [104, 101, 108, 108, 111, 32, 119, 111, 114, 108, 100]
      11).2 = ⌈((11 : Nat) : ℚ) / ((sampleConsts.MAX_PAYLOAD_LENGTH : Nat) : ℚ)⌉₊ :=
  (packetize_count_eq_ceil sampleConsts (fun _ => 0)
    [104, 101, 108, 108, 111, 32, 119, 111, 114, 108, 100] 11 (by decide)).1

/-- C5: for a message of length `L > 0` the packet at the last index of the array returned
by `packetize` has type LAST_DATA, every packet at an earlier index has type DATA and
`payload_length = MAX_PAYLOAD_LENGTH`, and no packet has type ACK, NACK or TERM. -/
theorem packetize_type_tagging (k : Consts) (junk : Nat → Int) (M : List Int) (L : Nat)
    (hk : k.WellFormed) (hL : 0 < L) :
    0 < (packetize k junk M L).1.length ∧
    (∀ (i : Nat) (h : i < (packetize k junk M L).1.length),
      (i + 1 = (packetize k junk M L).1.length →
        ((packetize k junk M L).1.get ⟨i, h⟩).type = k.LAST_DATA) ∧
      (i + 1 < (packetize k junk M L).1.length →
        ((packetize k junk M L).1.get ⟨i, h⟩).type = k.DATA ∧
        ((packetize k junk M L).1.get ⟨i, h⟩).payload_length = k.MAX_PAYLOAD_LENGTH)) ∧
    (∀ p ∈ (packetize k junk M L).1,
      p.type ≠ k.ACK ∧ p.type ≠ k.NACK ∧ p.type ≠ k.TERM) := by
  obtain ⟨h1, h2, h3, h4, h5, h6, h7, h8, h9, h10⟩ := hk.distinct
  have hlen := packetize_length k junk M L
  refine ⟨by rw [hlen]; exact numPackets_pos k hk.1 L hL, ?_, ?_⟩
  · intro i h
    rw [List.get_eq_getElem, packetize_getElem]
    constructor
    · intro hi
      have : i + 1 = numPackets k L := by omega
      simp [packetizeAt, this]
    · intro hi
      have : i + 1 ≠ numPackets k L := by omega
      simp [packetizeAt, this]
  · intro p hp
    obtain ⟨i, _, rfl⟩ := mem_packetize k junk M L p hp
    simp only [packetizeAt]
    split <;> exact ⟨by assumption, by assumption, by assumption⟩

/-- Witness for C5: capacity 5 and a 7-byte message. -/
theorem packetize_type_tagging_witness :
    0 < (packetize sampleConsts (fun _ => 0) [1, 2, 3, 4, 5, 6, 7] 7).1.length ∧
    (∀ p ∈ (packetize sampleConsts (fun _ => 0) [1, 2, 3, 4, 5, 6, 7] 7).1,
      p.type ≠ sampleConsts.ACK ∧ p.type ≠ sampleConsts.NACK ∧ p.type ≠ sampleConsts.TERM) :=
  ⟨(packetize_type_tagging sampleConsts (fun _ => 0) [1, 2, 3, 4, 5, 6, 7] 7
      (by decide) (by decide)).1,
    (packetize_type_tagging sampleConsts (fun _ => 0) [1, 2, 3, 4, 5, 6, 7] 7
      (by decide) (by decide)).2.2⟩

/-- C6: every packet `p` returned by `packetize(M, L)` satisfies
`p.checksum == checksum(p.payload, p.payload_length)` with
`p.payload_length <= MAX_PAYLOAD_LENGTH` and carries type DATA or LAST_DATA, so a pass of the
receive loop on the unmodified packet (successful read) sends exactly one reply, of type
ACK. -/
theorem packetize_packets_intact (k : Consts) (junk : Nat → Int) (M : List Int) (L : Nat)
    (hk : k.WellFormed) (hM : L ≤ M.length) (p : packet_t)
    (hp : p ∈ (packetize k junk M L).1) :
    p.checksum = checksum p.payload p.payload_length ∧
    p.payload_length ≤ k.MAX_PAYLOAD_LENGTH ∧
    ∀ (junk2 : Nat → Int) (s : RecvState) (ret : Int), 0 < ret →
      (recvStep k junk2 s ret p).1.sent = s.sent ++ [{ s.loc.ack_or_nack with type := k.ACK }] ∧
      (recvStep k junk2 s ret p).2 ≠ LoopExit.broke := by
  obtain ⟨i, hi, rfl⟩ := mem_packetize k junk M L p hp
  have hc := packetizeAt_checksum k junk M L i hk.1 hi hM
  refine ⟨hc, packetizeAt_payload_length_le k junk M L i hk.1, ?_⟩
  intro junk2 s ret hret
  have ht : (packetizeAt k junk M L i).type = k.DATA ∨
      (packetizeAt k junk M L i).type = k.LAST_DATA := by
    simp only [packetizeAt]
    split
    · exact Or.inr rfl
    · exact Or.inl rfl
  obtain ⟨hstep, hsent, _, _⟩ := recvStep_intact k junk2 s ret _ hk hret ht hc
  rw [hstep]
  refine ⟨hsent, ?_⟩
  show (if _ then _ else _) ≠ _
  split <;> simp

/-- Witness for C6: capacity 5, a 7-byte message, and its second packet. -/
theorem packetize_packets_intact_witness :
    (packetizeAt sampleConsts (fun _ => 0) [1, 2, 3, 4, 5, 6, 7] 7 1).checksum
      = checksum (packetizeAt sampleConsts (fun _ => 0) [1, 2, 3, 4, 5, 6, 7] 7 1).payload
          (packetizeAt sampleConsts (fun _ => 0) [1, 2, 3, 4, 5, 6, 7] 7 1).payload_length :=
  (packetize_packets_intact sampleConsts (fun _ => 0) [1, 2, 3, 4, 5, 6, 7] 7
    (by decide) (by decide) (packetizeAt sampleConsts (fun _ => 0) [1, 2, 3, 4, 5, 6, 7] 7 1)
    (by decide)).1

/-! ## Single-byte changes -/

theorem getD_set (B : List Int) (i j : Nat) (v : Int) (hi : i < B.length) :
    (B.set i v).getD j 0 = if j = i then v else B.getD j 0 := by
  by_cases h : j = i
  · subst h
    simp [List.getD, List.getElem?_set, hi]
  · have h' : i ≠ j := fun e => h e.symm
    simp [List.getD, List.getElem?_set, h, h']

theorem checksumSum_set (B : List Int) (i n : Nat) (v : Int) (hi : i < B.length)
    (hn : i < n) :
    checksumSum (B.set i v) n - checksumSum B n
      = (if i % 2 = 0 then (i : Int) else 1) * (v - B.getD i 0) := by
  unfold checksumSum
  rw [← Finset.sum_sub_distrib]
  rw [Finset.sum_eq_single i]
  · unfold checksumTerm
    rw [getD_set B i i v hi]
    simp only [if_true]
    split <;> ring
  · intro j _ hji
    unfold checksumTerm
    rw [getD_set B i j v hi]
    simp [hji]
  · intro h
    exact absurd (Finset.mem_range.mpr hn) h

theorem checksum_set_ne (B : List Int) (i : Nat) (v : Int)
    (hi1 : 1 ≤ i) (hi : i < B.length) (hbound : B.length ≤ 8388608)
    (hb : -128 ≤ B.getD i 0 ∧ B.getD i 0 ≤ 255) (hv : -128 ≤ v ∧ v ≤ 255)
    (hne : v ≠ B.getD i 0) :
    checksum (B.set i v) B.length ≠ checksum B B.length := by
  intro heq
  rw [checksum_eq_spec, checksum_eq_spec, checksum_spec, checksum_spec] at heq
  have hdvd := wrap32_eq_dvd _ _ heq
  rw [checksumSum_set B i B.length v hi hi] at hdvd
  have hw1 : (1 : Int) ≤ (if i % 2 = 0 then (i : Int) else 1) := by split <;> omega
  have hw2 : (if i % 2 = 0 then (i : Int) else 1) ≤ 8388608 := by split <;> omega
  have hd : v - B.getD i 0 ≠ 0 := sub_ne_zero.mpr hne
  have hd1 : |v - B.getD i 0| ≤ 383 := by rw [abs_le]; constructor <;> omega
  have habs : |(if i % 2 = 0 then (i : Int) else 1) * (v - B.getD i 0)| < 4294967296 := by
    rw [abs_mul, abs_of_pos (by omega : (0 : Int) < (if i % 2 = 0 then (i : Int) else 1))]
    have : (if i % 2 = 0 then (i : Int) else 1) * |v - B.getD i 0| ≤ 8388608 * 383 :=
      mul_le_mul hw2 hd1 (abs_nonneg _) (by norm_num)
    omega
  have hz := Int.eq_zero_of_abs_lt_dvd hdvd habs
  rcases mul_eq_zero.mp hz with h | h
  · omega
  · exact hd h

/-- Counterexample for C7: the one-byte buffers "a" and "b" differ at index 0 and have
the same checksum, so the universal statement fails (index 0 carries weight `0`). -/
theorem checksum_blind_to_index_zero :
    ¬ ∀ (k : Consts) (B : List Int) (i : Nat) (v : Int), k.WellFormed → B ≠ [] →
        B.length ≤ k.MAX_PAYLOAD_LENGTH → i < B.length →
        (∀ b ∈ B, -128 ≤ b ∧ b ≤ 255) → (-128 ≤ v ∧ v ≤ 255) → v ≠ B.getD i 0 →
        checksum (B.set i v) B.length ≠ checksum B B.length := by
  intro h
  exact h sampleConsts [97] 0 98 (by decide) (by decide) (by decide) (by decide)
    (by decide) (by decide) (by decide) (by decide)

/-- C7, amended: for every non-empty buffer `B` of `char` values of length at most
`MAX_PAYLOAD_LENGTH` (itself at most `2^23`) and every index `1 ≤ i < length`, replacing
the byte at index `i` by a different `char` value changes the checksum; a DATA or
LAST_DATA packet carrying the checksum of `B` and the changed payload is answered by the
receive loop with exactly one reply, of type NACK. -/
theorem checksum_detects_change_after_index_zero (k : Consts) (B : List Int) (i : Nat)
    (v : Int) (hk : k.WellFormed) (hlen : B.length ≤ k.MAX_PAYLOAD_LENGTH)
    (hcap : k.MAX_PAYLOAD_LENGTH ≤ 8388608) (hi1 : 1 ≤ i) (hi : i < B.length)
    (hB : ∀ b ∈ B, -128 ≤ b ∧ b ≤ 255) (hv : -128 ≤ v ∧ v ≤ 255) (hne : v ≠ B.getD i 0) :
    checksum (B.set i v) B.length ≠ checksum B B.length ∧
    ∀ (p : packet_t) (junk : Nat → Int) (s : RecvState) (ret : Int),
      (p.type = k.DATA ∨ p.type = k.LAST_DATA) → p.payload_length = B.length →
      p.checksum = checksum B B.length → p.payload.take B.length = B.set i v → 0 < ret →
      (recvStep k junk s ret p).1.sent
        = s.sent ++ [{ s.loc.ack_or_nack with type := k.NACK }] := by
  have hb : -128 ≤ B.getD i 0 ∧ B.getD i 0 ≤ 255 := by
    have : B.getD i 0 = B[i] := by simp [List.getD, List.getElem?_eq_getElem hi]
    rw [this]
    exact hB _ (List.getElem_mem hi)
  have hmain := checksum_set_ne B i v hi1 hi (by omega) hb hv hne
  refine ⟨hmain, ?_⟩
  intro p junk s ret ht hpl hpc hpay hret
  have hc : p.checksum ≠ checksum p.payload p.payload_length := by
    rw [hpc, hpl]
    have h1 : checksum p.payload B.length = checksum (B.set i v) B.length := by
      apply checksum_congr
      rw [hpay]
      simp [List.take_of_length_le]
    rw [h1]
    exact fun e => hmain e.symm
  rw [recvStep_corrupt k junk s ret p hk hret ht hc]

/-- Witness for C7 (amended): "ab" with its second byte changed to 'c'. -/
theorem checksum_detects_change_after_index_zero_witness :
    checksum (([97, 98] : List Int).set 1 99) ([97, 98] : List Int).length
      ≠ checksum [97, 98] ([97, 98] : List Int).length :=
  (checksum_detects_change_after_index_zero sampleConsts [97, 98] 1 99 (by decide)
    (by decide) (by decide) (by decide) (by decide) (by decide) (by decide) (by decide)).1

/-- C9: for a received packet of type DATA or LAST_DATA whose stored checksum differs from
`checksum(payload, payload_length)`, one pass of the receive loop sends exactly one packet,
of type NACK, leaves the accumulation buffer, its byte index and its capacity unchanged,
and does not end the loop, also for LAST_DATA.  For every packet whatsoever, the loop
condition fails (the loop ends towards delivery) only on a successfully read LAST_DATA
packet whose checksum matched, and the `break` exit leaves `alive = 0`, under which
`recvMessage` delivers nothing. -/
theorem corrupted_packet_nack_and_continue (k : Consts) (junk : Nat → Int) (s : RecvState)
    (hk : k.WellFormed) :
    (∀ (ret : Int) (p : packet_t), 0 < ret → (p.type = k.DATA ∨ p.type = k.LAST_DATA) →
      p.checksum ≠ checksum p.payload p.payload_length →
      (recvStep k junk s ret p).1.sent
          = s.sent ++ [{ s.loc.ack_or_nack with type := k.NACK }] ∧
        (recvStep k junk s ret p).1.loc.buffer = s.loc.buffer ∧
        (recvStep k junk s ret p).1.loc.index = s.loc.index ∧
        (recvStep k junk s ret p).1.loc.buffer_length = s.loc.buffer_length ∧
        (recvStep k junk s ret p).1.conn = s.conn ∧
        (recvStep k junk s ret p).2 = LoopExit.again) ∧
    (∀ (ret : Int) (p : packet_t), (recvStep k junk s ret p).2 = LoopExit.finished →
      0 < ret ∧ p.type = k.LAST_DATA ∧
        p.checksum = checksum p.payload p.payload_length) ∧
    (∀ (ret : Int) (p : packet_t), (recvStep k junk s ret p).2 = LoopExit.broke →
      (recvStep k junk s ret p).1.conn.alive = 0) := by
  obtain ⟨h1, h2, h3, h4, h5, h6, h7, h8, h9, h10⟩ := hk.distinct
  refine ⟨?_, ?_, ?_⟩
  · intro ret p hret ht hc
    rw [recvStep_corrupt k junk s ret p hk hret ht hc]
    simp
  · intro ret p hfin
    by_cases hbr : ret ≤ 0 ∨ p.type = k.TERM
    · simp [recvStep, hbr] at hfin
    · have hret : 0 < ret := by
        by_contra h; exact hbr (Or.inl (by omega))
      by_cases ht : p.type = k.DATA ∨ p.type = k.LAST_DATA
      · by_cases hc : p.checksum = checksum p.payload p.payload_length
        · obtain ⟨hstep, _⟩ := recvStep_intact k junk s ret p hk hret ht hc
          rw [hstep] at hfin
          by_cases hl : p.type = k.LAST_DATA
          · exact ⟨hret, hl, hc⟩
          · simp [hl] at hfin
        · rw [recvStep_corrupt k junk s ret p hk hret ht hc] at hfin
          simp at hfin
      · have hl : p.type ≠ k.LAST_DATA := fun e => ht (Or.inr e)
        have hd : p.type ≠ k.DATA := fun e => ht (Or.inl e)
        simp [recvStep, hbr, hd, hl] at hfin
  · intro ret p hbroke
    by_cases hbr : ret ≤ 0 ∨ p.type = k.TERM
    · simp [recvStep, hbr]
    · exfalso
      have : (recvStep k junk s ret p).2 ≠ LoopExit.broke := by
        simp only [recvStep, hbr, if_false]
        intro h
        split_ifs at h
      exact this hbroke

/-- Witness for C9: a LAST_DATA packet with payload "wo" and a wrong checksum, received
with an empty accumulation buffer. -/
theorem corrupted_packet_nack_and_continue_witness :
    (recvStep sampleConsts (fun _ => 0)
        { conn := ⟨1, 0, [], []⟩, loc := recvInit (fun _ => 0) ⟨0, 0, 0, []⟩, sent := [] } 1
        ⟨1, 2, 0, [119, 111, 0, 0, 0]⟩).2 = LoopExit.again :=
  ((corrupted_packet_nack_and_continue sampleConsts (fun _ => 0)
      { conn := ⟨1, 0, [], []⟩, loc := recvInit (fun _ => 0) ⟨0, 0, 0, []⟩, sent := [] }
      (by decide)).1 1 ⟨1, 2, 0, [119, 111, 0, 0, 0]⟩ (by decide) (by decide)
      (by decide)).2.2.2.2.2

/-- C8: on a connection with `alive == 0`, `rtp_send_message` returns `-1` and leaves the
connection, its outbound queue included, unchanged; `rtp_recv_message` returns `-1`, leaves
the connection, its inbound queue included, unchanged, and leaves `*buffer` and `*length` as
they were. -/
theorem dead_connection_calls_fail (junk : Nat → Int) (connection : rtp_connection_t)
    (buffer : List Int) (length : Nat) (buffer0 : List Int) (length0 : Int)
    (hdead : connection.alive = 0) :
    rtp_send_message junk connection buffer length = (-1, connection) ∧
    (rtp_send_message junk connection buffer length).2.send_queue = connection.send_queue ∧
    rtp_recv_message connection buffer0 length0
      = RecvOutcome.returned (-1) connection buffer0 length0 := by
  simp [rtp_send_message, rtp_recv_message, hdead]

/-- Witness for C8: a dead connection whose inbound queue holds one message. -/
theorem dead_connection_calls_fail_witness :
    rtp_send_message (fun _ => 0) ⟨0, 0, [], [⟨[104, 105], 2⟩]⟩ [111, 107] 2
      = (-1, ⟨0, 0, [], [⟨[104, 105], 2⟩]⟩) ∧
    rtp_recv_message ⟨0, 0, [], [⟨[104, 105], 2⟩]⟩ [] 0
      = RecvOutcome.returned (-1) ⟨0, 0, [], [⟨[104, 105], 2⟩]⟩ [] 0 :=
  ⟨(dead_connection_calls_fail (fun _ => 0) ⟨0, 0, [], [⟨[104, 105], 2⟩]⟩ [111, 107] 2 [] 0
      rfl).1,
    (dead_connection_calls_fail (fun _ => 0) ⟨0, 0, [], [⟨[104, 105], 2⟩]⟩ [111, 107] 2 [] 0
      rfl).2.2⟩

/-! ## Lemmas on the send worker -/

theorem ackWait_result (k : Consts) : ∀ (stores : List Int) (sig v : Int),
    ackWait k sig stores = some v → v = k.ACK ∨ v = k.NACK := by
  intro stores
  induction stores with
  | nil =>
    intro sig v h
    simp only [ackWait] at h
    split_ifs at h with hc
    simp only [Option.some.injEq] at h
    subst h
    by_contra hne
    exact hc ⟨fun e => hne (Or.inr e), fun e => hne (Or.inl e)⟩
  | cons w rest ih =>
    intro sig v h
    simp only [ackWait] at h
    split_ifs at h with hc
    · exact ih w v h
    · simp only [Option.some.injEq] at h
      subst h
      by_contra hne
      exact hc ⟨fun e => hne (Or.inr e), fun e => hne (Or.inl e)⟩

theorem sendStep_nack (k : Consts) (packet_array : List packet_t) (s : SendState)
    (ev : SendEvent) (hret : 0 < ev.net_ret)
    (hw : ackWait k s.ack_signal ev.stores = some k.NACK) :
    sendStep k packet_array s ev =
      { i := s.i, ack_signal := 0, alive := s.alive,
        sent := s.sent ++ (packet_array.get? s.i.toNat).toList,
        status := SendStatus.running } := by
  have : ¬ ev.net_ret ≤ 0 := by omega
  simp [sendStep, this, hw]

theorem sendStep_ack (k : Consts) (packet_array : List packet_t) (s : SendState)
    (ev : SendEvent) (hne : k.ACK ≠ k.NACK) (hret : 0 < ev.net_ret)
    (hw : ackWait k s.ack_signal ev.stores = some k.ACK) :
    sendStep k packet_array s ev =
      { i := s.i + 1, ack_signal := 0, alive := s.alive,
        sent := s.sent ++ (packet_array.get? s.i.toNat).toList,
        status := SendStatus.running } := by
  have : ¬ ev.net_ret ≤ 0 := by omega
  simp [sendStep, this, hw, hne]

theorem sendStep_status_ne_done (k : Consts) (packet_array : List packet_t) (s : SendState)
    (ev : SendEvent) : (sendStep k packet_array s ev).status ≠ SendStatus.done := by
  simp only [sendStep]
  split_ifs
  · simp
  · split <;> simp

theorem sendStep_sent_length (k : Consts) (packet_array : List packet_t) (s : SendState)
    (ev : SendEvent) : (sendStep k packet_array s ev).sent.length ≤ s.sent.length + 1 := by
  have h : (packet_array.get? s.i.toNat).toList.length ≤ 1 := by
    cases packet_array.get? s.i.toNat <;> simp
  simp only [sendStep]
  split_ifs
  · simp only [List.length_append]; omega
  · split <;> simp only [List.length_append] <;> omega

theorem sendLoop_sent_length (k : Consts) (packet_array : List packet_t) :
    ∀ (evs : List SendEvent) (s : SendState),
      (sendLoop k packet_array s evs).sent.length ≤ s.sent.length + evs.length := by
  intro evs
  induction evs with
  | nil => intro s; simp only [sendLoop]; split_ifs <;> simp
  | cons ev rest ih =>
    intro s
    simp only [sendLoop]
    have h1 := sendStep_sent_length k packet_array s ev
    split_ifs
    · have := ih (sendStep k packet_array s ev)
      simp only [List.length_cons]; omega
    · simp only [List.length_cons]; omega
    · simp

theorem sendLoop_done_append (k : Consts) (packet_array : List packet_t) :
    ∀ (e1 e2 : List SendEvent) (s : SendState),
      (sendLoop k packet_array s e1).status = SendStatus.done →
      sendLoop k packet_array s (e1 ++ e2) = sendLoop k packet_array s e1 := by
  intro e1
  induction e1 with
  | nil =>
    intro e2 s h
    simp only [sendLoop] at h
    by_cases hc : s.i < (packet_array.length : Int)
    · simp [hc] at h
    · cases e2 <;> simp [sendLoop, hc]
  | cons ev rest ih =>
    intro e2 s h
    simp only [sendLoop, List.cons_append] at h ⊢
    split_ifs at h ⊢ with hc hr
    · exact ih e2 _ h
    · exact absurd h (sendStep_status_ne_done k packet_array s ev)
    · rfl

theorem sendLoop_nacks (k : Consts) (packet_array : List packet_t) (alive : Int)
    (j : Nat) (p : packet_t) (hp : packet_array.get? j = some p) :
    ∀ (nacks rest : List SendEvent) (sent : List packet_t),
      (∀ e ∈ nacks, SendEvent.isNack k e) →
      sendLoop k packet_array ⟨(j : Int), 0, alive, sent, SendStatus.running⟩ (nacks ++ rest)
        = sendLoop k packet_array
            ⟨(j : Int), 0, alive, sent ++ List.replicate nacks.length p, SendStatus.running⟩
            rest := by
  have hj : j < packet_array.length := by
    by_contra h
    rw [List.get?_eq_none.mpr (by omega)] at hp
    exact absurd hp (by simp)
  have hjI : (j : Int) < (packet_array.length : Int) := by exact_mod_cast hj
  intro nacks
  induction nacks with
  | nil => intro rest sent _; simp
  | cons e r ih =>
    intro rest sent h
    have he := h e (List.mem_cons_self _ _)
    have hstep := sendStep_nack k packet_array
      ⟨(j : Int), 0, alive, sent, SendStatus.running⟩ e he.1 he.2
    simp only [Int.toNat_ofNat, hp, Option.toList] at hstep
    have hgen : ∀ l : List SendEvent,
        sendLoop k packet_array ⟨(j : Int), 0, alive, sent, SendStatus.running⟩ (e :: l)
          = sendLoop k packet_array ⟨(j : Int), 0, alive, sent ++ [p], SendStatus.running⟩
              l := by
      intro l
      simp only [sendLoop, hjI, if_true, hstep]
    rw [List.cons_append, hgen,
      ih rest (sent ++ [p]) (fun e' he' => h e' (List.mem_cons_of_mem _ he'))]
    simp [List.replicate_succ]

theorem sendLoop_blocks (k : Consts) (packet_array : List packet_t) (alive : Int)
    (hne : k.ACK ≠ k.NACK) :
    ∀ (blocks : List (List SendEvent × SendEvent)) (ps pre sent : List packet_t),
      packet_array = pre ++ ps → blocks.length = ps.length →
      (∀ b ∈ blocks, (∀ e ∈ b.1, SendEvent.isNack k e) ∧ SendEvent.isAck k b.2) →
      sendLoop k packet_array ⟨(pre.length : Int), 0, alive, sent, SendStatus.running⟩
          (blocks.map blockEvents).flatten
        = ⟨(packet_array.length : Int), 0, alive, sent ++ expectedSends ps blocks,
            SendStatus.done⟩ := by
  intro blocks
  induction blocks with
  | nil =>
    intro ps pre sent hpa hlen _
    have hps : ps = [] := List.length_eq_zero.mp hlen.symm
    subst hps
    simp only [List.append_nil] at hpa
    subst hpa
    simp [sendLoop, expectedSends]
  | cons b bs ih =>
    intro ps pre sent hpa hlen hb
    cases ps with
    | nil => simp at hlen
    | cons p ps' =>
      have hp : packet_array.get? pre.length = some p := by
        rw [hpa, List.get?_eq_getElem?, List.getElem?_append_right (le_refl _)]
        simp
      have hj : (pre.length : Int) < (packet_array.length : Int) := by
        rw [hpa]; simp
      obtain ⟨hn, ha⟩ := hb b (List.mem_cons_self _ _)
      simp only [List.map_cons, List.flatten_cons, blockEvents, List.append_assoc]
      rw [sendLoop_nacks k packet_array alive pre.length p hp b.1 _ sent hn]
      have hstep := sendStep_ack k packet_array
        ⟨(pre.length : Int), 0, alive, sent ++ List.replicate b.1.length p,
          SendStatus.running⟩ b.2 hne ha.1 ha.2
      simp only [Int.toNat_ofNat, hp, Option.toList] at hstep
      have hgen : ∀ l : List SendEvent,
          sendLoop k packet_array
              ⟨(pre.length : Int), 0, alive, sent ++ List.replicate b.1.length p,
                SendStatus.running⟩ (b.2 :: l)
            = sendLoop k packet_array
                ⟨(pre.length : Int) + 1, 0, alive,
                  sent ++ List.replicate b.1.length p ++ [p], SendStatus.running⟩ l := by
        intro l
        simp only [sendLoop, hj, if_true, hstep]
      rw [List.singleton_append, hgen]
      have hpa' : packet_array = (pre ++ [p]) ++ ps' := by rw [hpa]; simp
      have := ih ps' (pre ++ [p]) (sent ++ List.replicate b.1.length p ++ [p]) hpa'
        (by simpa using hlen) (fun b' hb' => hb b' (List.mem_cons_of_mem _ hb'))
      simp only [List.length_append, List.length_singleton, Nat.cast_add, Nat.cast_one] at this
      rw [this]
      simp [expectedSends, List.replicate_succ', List.append_assoc]

theorem expectedSends_length : ∀ (ps : List packet_t)
    (blocks : List (List SendEvent × SendEvent)), blocks.length = ps.length →
    (expectedSends ps blocks).length = ((blocks.map blockEvents).flatten).length := by
  intro ps
  induction ps with
  | nil =>
    intro blocks h
    have : blocks = [] := List.length_eq_zero.mp h
    subst this
    simp [expectedSends]
  | cons p ps ih =>
    intro blocks h
    cases blocks with
    | nil => simp at h
    | cons b bs =>
      simp only [expectedSends, List.length_append, List.length_replicate, List.map_cons,
        List.flatten_cons, blockEvents, List.length_singleton]
      rw [ih bs (by simpa using h)]

/-- C10: stop-and-wait retransmission in the send worker.  In one pass of the `for` loop
with a successful send, a wait ending on NACK leaves the index where it was and a wait
ending on ACK advances it by one; either way `ack_signal` is reset to `0`, which is neither
ACK nor NACK, and the packet at the index was handed to the channel.  Entered with
`ack_signal` reset, and met by, for each packet in turn, some passes answered NACK and then
one answered ACK, the loop transmits the packets in array order, `p[i]` exactly
`1 + (number of NACKs for it)` times, ends with `i = n`, and has not ended after any proper
prefix of those events, i.e. it ends exactly after the `n`-th ACK. -/
theorem stop_and_wait_retransmission (k : Consts) (packet_array : List packet_t)
    (blocks : List (List SendEvent × SendEvent)) (alive : Int)
    (hk : k.WellFormed) (h0 : k.ACK ≠ 0 ∧ k.NACK ≠ 0)
    (hlen : blocks.length = packet_array.length)
    (hb : ∀ b ∈ blocks, (∀ e ∈ b.1, SendEvent.isNack k e) ∧ SendEvent.isAck k b.2) :
    (∀ (s : SendState) (ev : SendEvent), 0 < ev.net_ret →
      (ackWait k s.ack_signal ev.stores = some k.NACK →
        (sendStep k packet_array s ev).i = s.i ∧
        (sendStep k packet_array s ev).ack_signal = 0 ∧
        (sendStep k packet_array s ev).sent
          = s.sent ++ (packet_array.get? s.i.toNat).toList) ∧
      (ackWait k s.ack_signal ev.stores = some k.ACK →
        (sendStep k packet_array s ev).i = s.i + 1 ∧
        (sendStep k packet_array s ev).ack_signal = 0 ∧
        (sendStep k packet_array s ev).sent
          = s.sent ++ (packet_array.get? s.i.toNat).toList)) ∧
    ((0 : Int) ≠ k.ACK ∧ (0 : Int) ≠ k.NACK) ∧
    sendLoop k packet_array ⟨0, 0, alive, [], SendStatus.running⟩
        (blocks.map blockEvents).flatten
      = ⟨(packet_array.length : Int), 0, alive, expectedSends packet_array blocks,
          SendStatus.done⟩ ∧
    (∀ e1 e2 : List SendEvent, (blocks.map blockEvents).flatten = e1 ++ e2 → e2 ≠ [] →
      (sendLoop k packet_array ⟨0, 0, alive, [], SendStatus.running⟩ e1).status
        ≠ SendStatus.done) := by
  have hne : k.ACK ≠ k.NACK := hk.distinct.2.2.2.2.2.2.2.1
  have hrun := sendLoop_blocks k packet_array alive hne blocks packet_array [] []
    (by simp) hlen hb
  simp only [List.length_nil, Nat.cast_zero, List.nil_append] at hrun
  refine ⟨?_, ⟨fun e => h0.1 e.symm, fun e => h0.2 e.symm⟩, hrun, ?_⟩
  · intro s ev hret
    constructor
    · intro hw
      rw [sendStep_nack k packet_array s ev hret hw]
      exact ⟨rfl, rfl, rfl⟩
    · intro hw
      rw [sendStep_ack k packet_array s ev hne hret hw]
      exact ⟨rfl, rfl, rfl⟩
  · intro e1 e2 hsplit he2 hdone
    have happ := sendLoop_done_append k packet_array e1 e2
      ⟨0, 0, alive, [], SendStatus.running⟩ hdone
    rw [← hsplit, hrun] at happ
    have hlen1 := sendLoop_sent_length k packet_array e1
      ⟨0, 0, alive, [], SendStatus.running⟩
    rw [← happ] at hlen1
    simp only [List.length_nil, Nat.zero_add] at hlen1
    rw [expectedSends_length packet_array blocks hlen, hsplit, List.length_append] at hlen1
    have : 0 < e2.length := List.length_pos.mpr he2
    omega

/-- Witness for C10: two packets, the first answered NACK then ACK, the second ACK after a
spurious wake-up. -/
theorem stop_and_wait_retransmission_witness :
    sendLoop sampleConsts [⟨0, 5, 32, [1, 2, 3, 4, 5]⟩, ⟨1, 2, 7, [6, 7, 0, 0, 0]⟩]
        ⟨0, 0, 1, [], SendStatus.running⟩
        (([([⟨1, [3]⟩], ⟨1, [2]⟩), ([], ⟨1, [0, 2]⟩)] :
          List (List SendEvent × SendEvent)).map blockEvents).flatten
      = ⟨2, 0, 1,
          [⟨0, 5, 32, [1, 2, 3, 4, 5]⟩, ⟨0, 5, 32, [1, 2, 3, 4, 5]⟩,
            ⟨1, 2, 7, [6, 7, 0, 0, 0]⟩],
          SendStatus.done⟩ :=
  (stop_and_wait_retransmission sampleConsts
    [⟨0, 5, 32, [1, 2, 3, 4, 5]⟩, ⟨1, 2, 7, [6, 7, 0, 0, 0]⟩]
    [([⟨1, [3]⟩], ⟨1, [2]⟩), ([], ⟨1, [0, 2]⟩)] 1
    (by decide) (by decide) (by decide) (by decide)).2.2.1

/-! ## Reassembly of a packetized message -/

theorem flatten_chunks (M : List Int) (m : Nat) (f : Nat → List Int) :
    ∀ n : Nat, (∀ i, i < n → f i = (M.drop (i * m)).take m) →
      ((List.range n).map f).flatten = M.take (n * m) := by
  intro n
  induction n with
  | zero => intro _; simp
  | succ n ih =>
    intro h
    rw [List.range_succ, List.map_append, List.flatten_append,
      ih (fun i hi => h i (by omega)), List.map_singleton, List.flatten_singleton,
      h n (by omega), Nat.succ_mul, List.take_add]
  
theorem reassemble_packetize (k : Consts) (junk : Nat → Int) (M : List Int) (L : Nat)
    (hk : 0 < k.MAX_PAYLOAD_LENGTH) (hM : L ≤ M.length) :
    reassemble (packetize k junk M L).1
      = M.take ((numPackets k L - 1) * k.MAX_PAYLOAD_LENGTH + L % k.MAX_PAYLOAD_LENGTH) := by
  by_cases h0 : numPackets k L = 0
  · obtain ⟨hb, _, _⟩ := numPackets_mul_bounds k hk L
    rw [h0] at hb
    have hL : L = 0 := by omega
    subst hL
    simp [reassemble, packetize, h0]
  · obtain ⟨c, hc⟩ : ∃ c, numPackets k L = c + 1 := ⟨numPackets k L - 1, by omega⟩
    have hlast : (packetizeAt k junk M L c).payload_length = L % k.MAX_PAYLOAD_LENGTH := by
      simp [packetizeAt, hc]
    have hfull : ∀ i, i < c →
        (packetizeAt k junk M L i).payload_length = k.MAX_PAYLOAD_LENGTH := by
      intro i hi
      have : i + 1 ≠ c + 1 := by omega
      simp [packetizeAt, hc, this]
    simp only [reassemble, packetize, List.map_map, hc, Nat.add_sub_cancel]
    rw [List.range_succ, List.map_append, List.flatten_append, List.map_singleton,
      List.flatten_singleton, List.take_add]
    congr 1
    · apply flatten_chunks
      intro i hi
      have := packetizeAt_payload_take k junk M L i hk (by omega) hM
      simp only [Function.comp_apply]
      rw [hfull i hi] at this ⊢
      exact this
    · have := packetizeAt_payload_take k junk M L c hk (by omega) hM
      simp only [Function.comp_apply]
      rw [hlast] at this ⊢
      exact this

/-- C1: evaluation of the code on the round trip.  For a message `M` of length `L`, the
reassembled payloads of `packetize(M, L)` are `M` when `L` is not a multiple of
`MAX_PAYLOAD_LENGTH`, and are `M` without its last `MAX_PAYLOAD_LENGTH` bytes when it is;
so for every non-zero exact multiple the round trip does not give `M` back. -/
theorem packetize_round_trip_fails_on_multiples (k : Consts) (junk : Nat → Int)
    (M : List Int) (L : Nat) (hk : 0 < k.MAX_PAYLOAD_LENGTH) (hM : M.length = L) :
    (L % k.MAX_PAYLOAD_LENGTH ≠ 0 → reassemble (packetize k junk M L).1 = M) ∧
    (L % k.MAX_PAYLOAD_LENGTH = 0 →
      reassemble (packetize k junk M L).1 = M.take (L - k.MAX_PAYLOAD_LENGTH)) ∧
    (0 < L → L % k.MAX_PAYLOAD_LENGTH = 0 → reassemble (packetize k junk M L).1 ≠ M) := by
  have hre := reassemble_packetize k junk M L hk hM.ge
  obtain ⟨hb1, hb2, hb3⟩ := numPackets_mul_bounds k hk L
  have hmul : L % k.MAX_PAYLOAD_LENGTH = 0 →
      (numPackets k L - 1) * k.MAX_PAYLOAD_LENGTH = L - k.MAX_PAYLOAD_LENGTH := by
    intro hr
    have hdm := Nat.div_add_mod L k.MAX_PAYLOAD_LENGTH
    have hnp : numPackets k L = L / k.MAX_PAYLOAD_LENGTH := by simp [numPackets, hr]
    rw [hnp, Nat.sub_mul, Nat.one_mul, Nat.mul_comm]
    omega
  refine ⟨?_, ?_, ?_⟩
  · intro hr
    rw [hre, hb3 hr, ← hM, List.take_length]
  · intro hr
    rw [hre, hr, Nat.add_zero, hmul hr]
  · intro hL hr heq
    rw [hre, hr, Nat.add_zero, hmul hr] at heq
    have := congrArg List.length heq
    rw [List.length_take, hM] at this
    have : k.MAX_PAYLOAD_LENGTH ≤ L := Nat.le_of_dvd hL (Nat.dvd_of_mod_eq_zero hr)
    omega

/-- Witness for C1: with capacity 5 the five bytes of "hello" come back as no bytes. -/
theorem packetize_round_trip_fails_on_multiples_witness :
    reassemble (packetize sampleConsts (fun _ => 0) [104, 101, 108, 108, 111] 5).1
      = ([104, 101, 108, 108, 111] : List Int).take (5 - sampleConsts.MAX_PAYLOAD_LENGTH) ∧
    reassemble (packetize sampleConsts (fun _ => 0) [104, 101, 108, 108, 111] 5).1
      ≠ [104, 101, 108, 108, 111] :=
  ⟨(packetize_round_trip_fails_on_multiples sampleConsts (fun _ => 0)
      [104, 101, 108, 108, 111] 5 (by decide) rfl).2.1 (by decide),
    (packetize_round_trip_fails_on_multiples sampleConsts (fun _ => 0)
      [104, 101, 108, 108, 111] 5 (by decide) rfl).2.2 (by decide) (by decide)⟩

/-! ## Delivery by the receive worker -/

theorem recvData_intact_fields (k : Consts) (junk : Nat → Int) (s : RecvState)
    (p : packet_t) (hc : p.checksum = checksum p.payload p.payload_length) :
    (recvData k junk s p).1.loc.buffer_length
      = (if s.loc.index + p.payload_length ≥ s.loc.buffer_length then
          MAX (s.loc.index + p.payload_length) (s.loc.buffer_length * 2)
        else s.loc.buffer_length) ∧
    (recvData k junk s p).1.loc.index = s.loc.index + p.payload_length ∧
    (recvData k junk s p).1.conn = s.conn := by
  refine ⟨?_, by simp [recvData, hc], by simp [recvData, hc]⟩
  simp only [recvData, hc, if_true]
  split <;> rfl

/-- C3: evaluation of the code on two intact packets.  On a live connection, an intact
DATA packet followed by an intact LAST_DATA packet with a shorter payload is delivered as
one message whose `length` is twice the first `payload_length` (the capacity
`buffer_length` of the accumulation buffer), which is more than the sum of the two
`payload_length` values. -/
theorem recv_delivers_capacity_as_length (k : Consts) (junk : Nat → Int)
    (uninit : packet_t) (conn : rtp_connection_t) (p1 p2 : packet_t) (r1 r2 : Int)
    (hk : k.WellFormed) (halive : conn.alive = 1) (hr1 : 0 < r1) (hr2 : 0 < r2)
    (ht1 : p1.type = k.DATA) (ht2 : p2.type = k.LAST_DATA)
    (hc1 : p1.checksum = checksum p1.payload p1.payload_length)
    (hc2 : p2.checksum = checksum p2.payload p2.payload_length)
    (hlt : p2.payload_length < p1.payload_length) :
    (recvMessage k junk uninit conn [(r1, p1), (r2, p2)]).map
        (fun r => r.1.recv_queue.map (fun m => m.length))
      = some (conn.recv_queue.map (fun m => m.length) ++ [2 * p1.payload_length]) ∧
    2 * p1.payload_length ≠ p1.payload_length + p2.payload_length := by
  refine ⟨?_, by omega⟩
  have hd : k.DATA ≠ k.LAST_DATA := hk.distinct.1
  have hne1 : p1.type ≠ k.LAST_DATA := by rw [ht1]; exact hd
  unfold recvMessage
  generalize hs0 :
    ({ conn := conn, loc := recvInit junk uninit, sent := [] } : RecvState) = s0
  have hi0 : s0.loc.index = 0 := by rw [← hs0]; rfl
  have hb0 : s0.loc.buffer_length = 0 := by rw [← hs0]; rfl
  have hc0 : s0.conn = conn := by rw [← hs0]
  obtain ⟨hs1, _, _, _⟩ := recvStep_intact k junk s0 r1 p1 hk hr1 (Or.inl ht1) hc1
  obtain ⟨hb1, hi1, hcn1⟩ := recvData_intact_fields k junk s0 p1 hc1
  obtain ⟨hs2, _, _, _⟩ := recvStep_intact k junk (recvData k junk s0 p1).1
    r2 p2 hk hr2 (Or.inr ht2) hc2
  obtain ⟨hb2, hi2, hcn2⟩ := recvData_intact_fields k junk (recvData k junk s0 p1).1 p2 hc2
  rw [hi0, hb0] at hb1
  rw [hi0] at hi1
  simp only [Nat.zero_add, Nat.zero_le, ge_iff_le, if_true, MAX, Nat.zero_mul,
    gt_iff_lt] at hb1 hi1
  have hb1' : (recvData k junk s0 p1).1.loc.buffer_length = p1.payload_length := by
    rw [hb1]; split_ifs <;> omega
  rw [hb1', hi1] at hb2
  have hlen2 : (recvData k junk (recvData k junk s0 p1).1 p2).1.loc.buffer_length
      = 2 * p1.payload_length := by
    rw [hb2]
    simp only [MAX]
    split_ifs <;> omega
  simp only [recvLoop, hs1, hne1, if_false, hs2, ht2, if_true, hcn2, hcn1, hc0,
    halive, Option.map_some', queue_add, List.map_append, List.map_cons, List.map_nil, hlen2]

/-- Witness for C3: capacity 5, the packets "hello" (DATA) and "wo" (LAST_DATA) of the
seven-byte message "hellowo": the delivered length is 10. -/
theorem recv_delivers_capacity_as_length_witness :
    (recvMessage sampleConsts (fun _ => 0) ⟨0, 0, 0, []⟩ ⟨1, 0, [], []⟩
        [(1, packetizeAt sampleConsts (fun _ => 0) [104, 101, 108, 108, 111, 119, 111] 7 0),
          (1, packetizeAt sampleConsts (fun _ => 0) [104, 101, 108, 108, 111, 119, 111] 7 1)]).map
        (fun r => r.1.recv_queue.map (fun m => m.length))
      = some ((([] : List message_t).map (fun m => m.length)) ++ [2 * 5]) :=
  (recv_delivers_capacity_as_length sampleConsts (fun _ => 0) ⟨0, 0, 0, []⟩ ⟨1, 0, [], []⟩
    (packetizeAt sampleConsts (fun _ => 0) [104, 101, 108, 108, 111, 119, 111] 7 0)
    (packetizeAt sampleConsts (fun _ => 0) [104, 101, 108, 108, 111, 119, 111] 7 1) 1 1
    (by decide) rfl (by decide) (by decide) (by decide) (by decide) (by decide) (by decide)
    (by decide)).1

end Rtp
